import Mathlib

/-!
# Channel-invite modal: option aggregation and selection state

Shallow embedding of the algorithmic slice of
`src/webapp/channels/src/components/channel_invite_modal/channel_invite_modal.tsx`:
the `getOptions` aggregation, the `addValue` selection routing, the
`handleSubmit` commit flow, and the debounced `search` timer discipline.

JavaScript objects are compared by reference in `===`,
`Array.prototype.indexOf` and `Set` membership.  Each embedded object
carries a `ref` field modelling its object reference (a JS heap gives
distinct objects distinct references, and a reference determines the
object's fields), so structural equality of the embedded values coincides
with JS strict equality on objects.

String utilities (case folding, term matching, trimming, ordering) are
implemented structurally over `List Char` so that every definition is
kernel-computable.
-/

set_option autoImplicit false

namespace ChannelInvite

/-- ASCII lower-casing of one character. -/
def lowerChar (c : Char) : Char :=
  if 'A' ≤ c ∧ c ≤ 'Z' then Char.ofNat (c.toNat + 32) else c

/-- Case-folded character list of a string. -/
def lowerChars (s : String) : List Char :=
  s.data.map lowerChar

/-- Lexicographic strict order on character lists. -/
def charListLt : List Char → List Char → Bool
  | [], [] => false
  | [], _ :: _ => true
  | _ :: _, [] => false
  | a :: as, b :: bs => if a < b then true else if b < a then false else charListLt as bs

/-- Split a character list on spaces (the accumulator holds the current
word reversed). -/
def splitOnSpaceAux : List Char → List Char → List (List Char)
  | acc, [] => [acc.reverse]
  | acc, c :: cs =>
    if c = ' ' then acc.reverse :: splitOnSpaceAux [] cs
    else splitOnSpaceAux (c :: acc) cs

/-- Strip leading and trailing whitespace (JS `String.prototype.trim`). -/
def strTrim (s : String) : String :=
  ⟨((s.data.dropWhile Char.isWhitespace).reverse.dropWhile Char.isWhitespace).reverse⟩

/-- A user profile (`UserProfile`/`UserProfileValue` in the source): id,
username, display-name field, delete timestamp (0 = active), roles string,
bot flag, last picture update, optional remote-origin id.  `ref` models the
JS object reference (see module docstring). -/
structure Person where
  ref : Nat
  id : String
  username : String
  displayName : String
  delete_at : Nat
  roles : String
  is_bot : Bool
  last_picture_update : Nat
  remote_id : Option String := none
deriving DecidableEq

/-- A group (`Group`/`GroupValue` in the source): id, name, member id list,
member count.  `ref` models the JS object reference. -/
structure Group where
  ref : Nat
  id : String
  name : String
  member_ids : List String
  member_count : Nat
deriving DecidableEq

/-- An entry of the option list: the source's `UserProfileValue | GroupValue`
union, discriminated by `'username' in option`. -/
inductive Opt where
  | user (u : Person)
  | group (g : Group)
deriving DecidableEq

/-- The identity of an option (`option.id`). -/
def optId : Opt → String
  | .user u => u.id
  | .group g => g.id

/-- `USERS_PER_PAGE` (line 35 of the source). -/
def USERS_PER_PAGE : Nat := 50

/-- `USERS_FROM_DMS` (line 36 of the source). -/
def USERS_FROM_DMS : Nat := 10

/-- `MAX_USERS` (line 37 of the source). -/
def MAX_USERS : Nat := 25

/-- The props consumed by the embedded functions.  `membersInTeam` is the key
set of the source's id-indexed record; `excludeUsers` is `Option` because the
prop is optional in the source (its `defaultProps` value `{}` is `some []`);
`includeUsers` is `Object.values` of the record, also defaulted to `[]`. -/
structure Props where
  profilesNotInCurrentChannel : List Person
  profilesInCurrentChannel : List Person
  profilesNotInCurrentTeam : List Person
  profilesFromRecentDMs : List Person
  membersInTeam : List String
  skipCommit : Bool := false
  hasOnAddCallback : Bool := false
  excludeUsers : Option (List Person) := some []
  includeUsers : List Person := []
  groups : List Group := []

/-- The component state (`State` in the source).  The source's `show` field is
named `showModal` here because `show` is a Lean keyword. -/
structure ModalState where
  values : List Person
  optionValues : List Opt
  usersNotInTeam : List Person
  guestsNotInTeam : List Person
  term : String
  showModal : Bool
  saving : Bool
  loadingUsers : Bool
  inviteError : Option String
deriving DecidableEq

/-- The state set up in the constructor (lines 103–113 of the source). -/
def initialState : ModalState where
  values := []
  optionValues := []
  usersNotInTeam := []
  guestsNotInTeam := []
  term := ""
  showModal := true
  saving := false
  loadingUsers := true
  inviteError := none

/-- Modelled from the spec: `isGuest` (imported from
`mattermost-redux/utils/user_utils`, not part of this fragment) — whether the
space-separated roles string contains the guest role flag. -/
def isGuest (roles : String) : Bool :=
  (splitOnSpaceAux [] roles.data).contains "system_guest".data

/-- Modelled from the spec: `filterProfilesStartingWithTerm` (imported from
`mattermost-redux/utils/user_utils`, not part of this fragment) —
case-insensitive term match against username or display name; the empty
term matches everything. -/
def filterProfilesStartingWithTerm (profiles : List Person) (term : String) : List Person :=
  profiles.filter fun u =>
    (lowerChars term).isPrefixOf (lowerChars u.username) ||
    (lowerChars term).isPrefixOf (lowerChars u.displayName)

/-- Modelled from the spec: `filterGroupsMatchingTerm` (imported from
`mattermost-redux/utils/group_utils`, not part of this fragment) —
case-insensitive term match on the group name. -/
def filterGroupsMatchingTerm (groups : List Group) (term : String) : List Group :=
  groups.filter fun g => (lowerChars term).isPrefixOf (lowerChars g.name)

/-- Modelled from the spec: the display text an option is ordered by —
the username of a Person, the name of a Group. -/
def displayText : Opt → String
  | .user u => u.username
  | .group g => g.name

/-- The case-insensitive sort key of an option. -/
def optKey (o : Opt) : List Char := lowerChars (displayText o)

/-- Stable insertion of an option into a key-sorted list: the new element
goes after existing elements with an equal key. -/
def insertSorted (x : Opt) : List Opt → List Opt
  | [] => [x]
  | y :: ys => if charListLt (optKey x) (optKey y) then x :: y :: ys else y :: insertSorted x ys

/-- Modelled from the spec: `sortUsersAndGroups` (imported from `utils/utils`,
not part of this fragment) — a deterministic, case-insensitive,
capability-polymorphic comparator over users and groups comparing display
text, applied by a stable sort (ties keep original relative order). -/
def sortUsersAndGroups (l : List Opt) : List Opt :=
  l.foldl (fun acc x => insertSorted x acc) []

/-- `filterOutDeletedAndExcludedAndNotInTeamUsers` (lines 368–372 of the
source): keep profiles with `delete_at === 0` whose id is not in the
exclusion set. -/
def filterOutDeletedAndExcludedAndNotInTeamUsers
    (users : List Person) (excludeUserIds : List String) : List Person :=
  users.filter fun u => u.delete_at == 0 && !(excludeUserIds.contains u.id)

/-- The exclusion-id set as `getOptions` builds it (lines 213–218 of the
source).  When `excludeUsers` is present, the source runs
`new Set(...notInTeamIds, excludeIdsArray)`: the JS `Set` constructor takes a
single iterable, so when `notInTeamIds` is non-empty its first element — a
string — is that iterable and the set holds that string's characters
(one-character strings); only when `notInTeamIds` is empty does the
exclude-ids array become the first argument.  When `excludeUsers` is absent,
the set is `new Set(notInTeamIds)`.  The set is modelled as a list used only
through membership. -/
def mkExcludedSet : List String → Option (List String) → List String
  | notInTeamIds, some excludeIds =>
    match notInTeamIds with
    | [] => excludeIds
    | id0 :: _ => id0.data.map fun c => String.mk [c]
  | notInTeamIds, none => notInTeamIds

/-- The `let users` pool of `getOptions` (lines 219–228 of the source): the
primary pool filtered by term, activity and exclusion, then the
`includeUsers` values appended unconditionally. -/
def primaryUsers (p : Props) (term : String) : List Person :=
  filterOutDeletedAndExcludedAndNotInTeamUsers
    (filterProfilesStartingWithTerm
      (p.profilesNotInCurrentChannel ++ p.profilesInCurrentChannel) term)
    (mkExcludedSet (p.profilesNotInCurrentTeam.map Person.id)
      (p.excludeUsers.map (List.map Person.id)))
  ++ p.includeUsers

/-- The `dmUsers` pool of `getOptions` (lines 229–232 of the source): recent
direct-message profiles filtered the same way, truncated to `USERS_FROM_DMS`. -/
def dmUsersOf (p : Props) (term : String) : List Person :=
  (filterOutDeletedAndExcludedAndNotInTeamUsers
    (filterProfilesStartingWithTerm p.profilesFromRecentDMs term)
    (mkExcludedSet (p.profilesNotInCurrentTeam.map Person.id)
      (p.excludeUsers.map (List.map Person.id)))).take USERS_FROM_DMS

/-- First-occurrence deduplication with an accumulator of already-seen
elements: the order of `Array.from(new Set(list))` in JS, with `Set`
membership being strict (reference) equality on objects. -/
def dedupAux (seen : List Opt) : List Opt → List Opt
  | [] => []
  | x :: xs => if x ∈ seen then dedupAux seen xs else x :: dedupAux (x :: seen) xs

/-- `Array.from(new Set(l))`: keep the first occurrence of each element. -/
def dedupOpt (l : List Opt) : List Opt := dedupAux [] l

/-- `getOptions` (lines 212–246 of the source): dm users first, then the
sorted merge of matching groups and the primary pool, truncated to
`MAX_USERS`, then deduplicated via `Array.from(new Set(...))`.  `term` is
the component's `this.state.term`. -/
def getOptions (p : Props) (term : String) : List Opt :=
  dedupOpt
    (((dmUsersOf p term).map Opt.user ++
      sortUsersAndGroups
        ((filterGroupsMatchingTerm p.groups term).map Opt.group ++
         (primaryUsers p term).map Opt.user)).take MAX_USERS)

/-- `addValue` (lines 116–146 of the source).  A group (no `username` field)
falls through the `'username' in value` guard and nothing happens.  A user
not in `membersInTeam` is routed to the guest or non-guest not-in-team
bucket (appended when `indexOf` misses, i.e. when no strictly-equal object
is present); a team member is appended to `values` under the same
`indexOf` guard. -/
def addValue (p : Props) (value : Opt) (s : ModalState) : ModalState :=
  match value with
  | .group _ => s
  | .user profile =>
    if ¬ p.membersInTeam.contains profile.id then
      if isGuest profile.roles then
        if profile ∈ s.guestsNotInTeam then s
        else { s with guestsNotInTeam := s.guestsNotInTeam ++ [profile] }
      else
        if profile ∈ s.usersNotInTeam then s
        else { s with usersNotInTeam := s.usersNotInTeam ++ [profile] }
    else
      if profile ∈ s.values then s
      else { s with values := s.values ++ [profile] }

/-- The outcome the external `addUsersToChannel` promise resolves with:
either a success or an `{error: {message}}` payload. -/
inductive CommitOutcome where
  | ok
  | error (message : String)
deriving DecidableEq

/-- `handleSubmit` (lines 288–319 of the source) together with the resolution
of the `addUsersToChannel` promise.  Empty selection returns immediately;
`skipCommit` with a callback clears saving/error and hides the modal; the
commit path sets `saving`, then on an error payload runs
`handleInviteError` (lines 254–261: `saving := false`,
`inviteError := err.message`), and on success clears saving/error and runs
`onHide` (line 249: `show := false`). -/
def handleSubmit (p : Props) (commit : CommitOutcome) (s : ModalState) : ModalState :=
  if (s.values.map Person.id).length == 0 then s
  else if p.skipCommit && p.hasOnAddCallback then
    { s with saving := false, inviteError := none, showModal := false }
  else
    let s1 := { s with saving := true }
    match commit with
    | .error m => { s1 with saving := false, inviteError := some m }
    | .ok => { s1 with saving := false, inviteError := none, showModal := false }

/-- The debounce discipline of `search` (lines 321–356 of the source):
`stateTerm` is `this.state.term`; `pendingTerm` is the term captured by the
single pending `setTimeout` callback, `none` when no timer is pending
(`clearTimeout` plus `setTimeout` make setting it an overwrite);
`dispatched` records, in order, the term of every search dispatch the timer
callbacks have fired (each entry stands for the paired
`searchProfiles`/`searchAssociatedGroupsForReference` calls). -/
structure SearchDebounce where
  stateTerm : String
  pendingTerm : Option String
  dispatched : List String
deriving DecidableEq

/-- `search` (lines 321–356 of the source): trim the term, cancel the pending
timer, store the term in state, and arm a single new timer capturing the
trimmed term. -/
def search (searchTerm : String) (s : SearchDebounce) : SearchDebounce :=
  let term := strTrim searchTerm
  { stateTerm := term, pendingTerm := some term, dispatched := s.dispatched }

/-- Expiry of the pending debounce timer: the callback (lines 329–353 of the
source) returns without dispatching when the captured term is empty,
otherwise performs one search dispatch with that term; either way the timer
is consumed. -/
def fireTimer (s : SearchDebounce) : SearchDebounce :=
  match s.pendingTerm with
  | none => s
  | some t =>
    { s with
      pendingTerm := none
      dispatched := if t == "" then s.dispatched else s.dispatched ++ [t] }

/-- The elements of `seen` after `dedupAux` has processed a list: every kept
element is pushed onto the accumulator. -/
def seenAcc : List Opt → List Opt → List Opt
  | seen, [] => seen
  | seen, x :: xs => if x ∈ seen then seenAcc seen xs else seenAcc (x :: seen) xs

/-- Whether an option is an active user, a user injected through
`includeUsers`, or a group: the invariant the aggregation actually
maintains about delete timestamps. -/
def activeOrIncluded (p : Props) : Opt → Bool
  | .user u => u.delete_at == 0 || decide (u ∈ p.includeUsers)
  | .group _ => true

/-- A profile literal for concrete test inputs, with display name equal to
the username. -/
def mkPerson (ref : Nat) (i un : String) (da : Nat) (roles : String) : Person :=
  { ref := ref, id := i, username := un, displayName := un, delete_at := da,
    roles := roles, is_bot := false, last_picture_update := 0 }

/-- Props with every pool empty. -/
def emptyProps : Props :=
  { profilesNotInCurrentChannel := []
    profilesInCurrentChannel := []
    profilesNotInCurrentTeam := []
    profilesFromRecentDMs := []
    membersInTeam := [] }

/-- A user who is not in the current team (id `t1`). -/
def c1pT : Person := mkPerson 0 "t1" "tuser" 0 "system_user"

/-- A user listed in `excludeUsers` (id `e1`). -/
def c1pE : Person := mkPerson 1 "e1" "euser" 0 "system_user"

/-- Pools where both users of the claimed exclusion set — the not-in-team
user `t1` and the explicitly excluded user `e1` — sit in the primary pool. -/
def c1props : Props :=
  { emptyProps with
    profilesNotInCurrentChannel := [c1pE, c1pT]
    profilesNotInCurrentTeam := [c1pT]
    excludeUsers := some [c1pE] }

/-- A user object with id `u` in the primary pool. -/
def c2userA : Person := mkPerson 2 "u" "aaa" 0 "system_user"

/-- A distinct user object with the same id `u`, supplied via `includeUsers`. -/
def c2userB : Person := mkPerson 3 "u" "bbb" 0 "system_user"

/-- Pools where two distinct objects share the id `u`. -/
def c2props : Props :=
  { emptyProps with
    profilesNotInCurrentChannel := [c2userA]
    includeUsers := [c2userB] }

/-- A deactivated user (`delete_at = 77`) supplied via `includeUsers`. -/
def c3deleted : Person := mkPerson 4 "d1" "dd" 77 "system_user"

/-- Pools whose only candidate is the deactivated `includeUsers` entry. -/
def c3props : Props :=
  { emptyProps with includeUsers := [c3deleted] }

/-- Props for the commit-failure scenario (commit path, `skipCommit` false). -/
def c6props : Props := emptyProps

/-- A state with a non-empty selection and the modal open. -/
def c6state : ModalState :=
  { initialState with values := [mkPerson 10 "w1" "w" 0 "system_user"] }

/-- A team member object with id `u1`. -/
def c7q1 : Person := mkPerson 5 "u1" "q" 0 "system_user"

/-- A distinct object with the same identity (id `u1`). -/
def c7q2 : Person := mkPerson 6 "u1" "q" 0 "system_user"

/-- Props whose team membership record contains the id `u1`. -/
def c7props : Props := { emptyProps with membersInTeam := ["u1"] }

/-- A guest-role user who is not a team member. -/
def c8guest : Person := mkPerson 20 "g1" "guest" 0 "system_guest"

/-- A non-guest user who is not a team member. -/
def c8user : Person := mkPerson 21 "n1" "norm" 0 "system_user"

/-- Props with an empty team membership record. -/
def c8props : Props := emptyProps

theorem dedupAux_mem : ∀ (l seen : List Opt) (x : Opt),
    x ∈ dedupAux seen l → x ∈ l ∧ x ∉ seen := by
  intro l
  induction l with
  | nil => intro seen x hx; simp [dedupAux] at hx
  | cons y ys ih =>
    intro seen x hx
    by_cases hy : y ∈ seen
    · simp only [dedupAux, if_pos hy] at hx
      obtain ⟨h1, h2⟩ := ih seen x hx
      exact ⟨List.mem_cons_of_mem _ h1, h2⟩
    · simp only [dedupAux, if_neg hy] at hx
      rcases List.mem_cons.mp hx with h | h
      · subst h
        exact ⟨List.mem_cons_self _ _, hy⟩
      · obtain ⟨h1, h2⟩ := ih _ x h
        exact ⟨List.mem_cons_of_mem _ h1, fun hs => h2 (List.mem_cons_of_mem _ hs)⟩

theorem dedupAux_nodup : ∀ (l seen : List Opt), (dedupAux seen l).Nodup := by
  intro l
  induction l with
  | nil => intro seen; simp [dedupAux]
  | cons y ys ih =>
    intro seen
    by_cases hy : y ∈ seen
    · simp only [dedupAux, if_pos hy]
      exact ih seen
    · simp only [dedupAux, if_neg hy]
      refine List.nodup_cons.mpr ⟨?_, ih _⟩
      intro hcon
      exact (dedupAux_mem ys (y :: seen) y hcon).2 (List.mem_cons_self _ _)

theorem dedupAux_length_le : ∀ (l seen : List Opt), (dedupAux seen l).length ≤ l.length := by
  intro l
  induction l with
  | nil => intro seen; simp [dedupAux]
  | cons y ys ih =>
    intro seen
    by_cases hy : y ∈ seen
    · simp only [dedupAux, if_pos hy]
      exact Nat.le_succ_of_le (ih seen)
    · simp only [dedupAux, if_neg hy, List.length_cons]
      exact Nat.succ_le_succ (ih _)

theorem dedupAux_append : ∀ (A : List Opt) (seen B : List Opt),
    dedupAux seen (A ++ B) = dedupAux seen A ++ dedupAux (seenAcc seen A) B := by
  intro A
  induction A with
  | nil => intro seen B; simp [dedupAux, seenAcc]
  | cons a as ih =>
    intro seen B
    by_cases ha : a ∈ seen
    · simp only [List.cons_append, dedupAux, seenAcc, if_pos ha]
      exact ih seen B
    · simp only [List.cons_append, dedupAux, seenAcc, if_neg ha]
      rw [List.append_eq, ih (a :: seen) B]

theorem mem_seenAcc_left : ∀ (A seen : List Opt) (x : Opt),
    x ∈ seen → x ∈ seenAcc seen A := by
  intro A
  induction A with
  | nil => intro seen x hx; simpa [seenAcc] using hx
  | cons a as ih =>
    intro seen x hx
    by_cases ha : a ∈ seen
    · simp only [seenAcc, if_pos ha]
      exact ih seen x hx
    · simp only [seenAcc, if_neg ha]
      exact ih _ x (List.mem_cons_of_mem _ hx)

theorem mem_seenAcc_right : ∀ (A seen : List Opt) (x : Opt),
    x ∈ A → x ∈ seenAcc seen A := by
  intro A
  induction A with
  | nil => intro seen x hx; simp at hx
  | cons a as ih =>
    intro seen x hx
    rcases List.mem_cons.mp hx with h | h
    · subst h
      by_cases ha : x ∈ seen
      · simp only [seenAcc, if_pos ha]
        exact mem_seenAcc_left as seen x ha
      · simp only [seenAcc, if_neg ha]
        exact mem_seenAcc_left as _ x (List.mem_cons_self _ _)
    · by_cases ha : a ∈ seen
      · simp only [seenAcc, if_pos ha]
        exact ih seen x h
      · simp only [seenAcc, if_neg ha]
        exact ih _ x h

theorem mem_insertSorted : ∀ (l : List Opt) (x a : Opt),
    a ∈ insertSorted x l ↔ a = x ∨ a ∈ l := by
  intro l x
  induction l with
  | nil => intro a; simp [insertSorted]
  | cons y ys ih =>
    intro a
    simp only [insertSorted]
    split
    · simp [List.mem_cons]
    · simp only [List.mem_cons, ih]
      tauto

theorem mem_sort_acc : ∀ (l acc : List Opt) (a : Opt),
    a ∈ List.foldl (fun acc x => insertSorted x acc) acc l → a ∈ acc ∨ a ∈ l := by
  intro l
  induction l with
  | nil => intro acc a h; exact Or.inl h
  | cons x xs ih =>
    intro acc a h
    simp only [List.foldl_cons] at h
    rcases ih _ a h with h1 | h1
    · rcases (mem_insertSorted acc x a).mp h1 with h2 | h2
      · right; simp [h2]
      · left; exact h2
    · right; exact List.mem_cons_of_mem _ h1

theorem mem_sortUsersAndGroups {a : Opt} {l : List Opt}
    (h : a ∈ sortUsersAndGroups l) : a ∈ l := by
  rcases mem_sort_acc l [] a h with h1 | h1
  · simp at h1
  · exact h1

theorem mem_filterOut {u : Person} {l : List Person} {ex : List String}
    (h : u ∈ filterOutDeletedAndExcludedAndNotInTeamUsers l ex) :
    u ∈ l ∧ u.delete_at = 0 ∧ ex.contains u.id = false := by
  unfold filterOutDeletedAndExcludedAndNotInTeamUsers at h
  rw [List.mem_filter] at h
  obtain ⟨h1, h2⟩ := h
  simp only [Bool.and_eq_true, beq_iff_eq, Bool.not_eq_true'] at h2
  exact ⟨h1, h2.1, h2.2⟩

theorem dmUsersOf_length_le (p : Props) (term : String) :
    (dmUsersOf p term).length ≤ USERS_FROM_DMS := by
  unfold dmUsersOf
  exact List.length_take_le _ _

theorem dedup_take_split (A G : List Opt) (hA : A.length ≤ MAX_USERS) :
    dedupOpt ((A ++ G).take MAX_USERS) =
      dedupOpt A ++ dedupAux (seenAcc [] A) (G.take (MAX_USERS - A.length)) := by
  rw [List.take_append_eq_append_take, List.take_of_length_le hA]
  unfold dedupOpt
  exact dedupAux_append A [] _

/-- C1 (the claim is the intended behaviour, the code diverges from it): at a
concrete input the aggregation returns options whose ids are in the claimed
exclusion set.  `t1` is the id of a `profilesNotInCurrentTeam` member and
`e1` the id of an `excludeUsers` member, yet both are returned, because the
spread-argument `new Set` construction puts only the characters of the first
not-in-team id into the exclusion set. -/
theorem getOptions_exclusion_violated :
    ((getOptions c1props "").map optId) = ["e1", "t1"] ∧
    "t1" ∈ c1props.profilesNotInCurrentTeam.map Person.id ∧
    "e1" ∈ (c1props.excludeUsers.getD []).map Person.id := by
  refine ⟨by decide, by decide, by decide⟩

/-- C2 counterexample: with one object of id `u` in the primary pool and a
distinct object of the same id injected via `includeUsers`, the aggregation
returns two entries with the same id — deduplication is by object
reference, not by identity. -/
theorem getOptions_duplicate_id_cex :
    ((getOptions c2props "").map optId) = ["u", "u"] ∧
    ¬ ((getOptions c2props "").map optId).Nodup := by
  refine ⟨by decide, by decide⟩

/-- C2 amended: the aggregated result contains no two entries that are the
same object (`Array.from(new Set(...))` deduplicates by reference); entries
that are distinct objects may still share an id. -/
theorem getOptions_nodup (p : Props) (term : String) :
    (getOptions p term).Nodup :=
  dedupAux_nodup _ _

/-- C3 counterexample: a Person with non-zero delete timestamp supplied
through `includeUsers` appears in the aggregated result, because the
`includeUsers` values are appended after the delete/exclusion filter ran. -/
theorem getOptions_deleted_included_cex :
    getOptions c3props "" = [Opt.user c3deleted] ∧ c3deleted.delete_at = 77 := by
  refine ⟨by decide, by decide⟩

/-- C3 amended: every Person in the aggregated result either has delete
timestamp 0 or was injected through `includeUsers`; the primary and
recent-DM pools are filtered to active users, and only the `includeUsers`
overrides bypass that filter. -/
theorem getOptions_active_or_included (p : Props) (term : String) :
    (getOptions p term).all (activeOrIncluded p) = true := by
  rw [List.all_eq_true]
  intro o ho
  unfold getOptions dedupOpt at ho
  have h1 := (dedupAux_mem _ _ _ ho).1
  have h2 := List.mem_of_mem_take h1
  rcases List.mem_append.mp h2 with h3 | h3
  · rcases List.mem_map.mp h3 with ⟨u, hu, rfl⟩
    unfold dmUsersOf at hu
    have h4 := mem_filterOut (List.mem_of_mem_take hu)
    simp [activeOrIncluded, h4.2.1]
  · have h4 := mem_sortUsersAndGroups h3
    rcases List.mem_append.mp h4 with h5 | h5
    · rcases List.mem_map.mp h5 with ⟨g, hg, rfl⟩
      simp [activeOrIncluded]
    · rcases List.mem_map.mp h5 with ⟨u, hu, rfl⟩
      unfold primaryUsers at hu
      rcases List.mem_append.mp hu with h6 | h6
      · have h7 := mem_filterOut h6
        simp [activeOrIncluded, h7.2.1]
      · simp [activeOrIncluded, h6]

/-- C4: the aggregated result splits as the deduplicated recent-DM block
followed by a remainder: at most `USERS_FROM_DMS = 10` options are sourced
from the recent-DM pool, they stand at the front, and no option after them
was sourced from that pool. -/
theorem getOptions_dm_first (p : Props) (term : String) :
    ∃ rest : List Opt,
      getOptions p term = dedupOpt ((dmUsersOf p term).map Opt.user) ++ rest ∧
      (dedupOpt ((dmUsersOf p term).map Opt.user)).length ≤ USERS_FROM_DMS ∧
      ∀ x ∈ rest, x ∉ (dmUsersOf p term).map Opt.user := by
  have hA : ((dmUsersOf p term).map Opt.user).length ≤ MAX_USERS := by
    rw [List.length_map]
    exact le_trans (dmUsersOf_length_le p term) (by decide)
  refine
    ⟨dedupAux (seenAcc [] ((dmUsersOf p term).map Opt.user))
      ((sortUsersAndGroups
        ((filterGroupsMatchingTerm p.groups term).map Opt.group ++
         (primaryUsers p term).map Opt.user)).take
        (MAX_USERS - ((dmUsersOf p term).map Opt.user).length)), ?_, ?_, ?_⟩
  · unfold getOptions
    exact dedup_take_split _ _ hA
  · exact le_trans (dedupAux_length_le _ _)
      (by rw [List.length_map]; exact dmUsersOf_length_le p term)
  · intro x hx hxA
    exact (dedupAux_mem _ _ _ hx).2 (mem_seenAcc_right _ _ _ hxA)

/-- C5: the aggregated result never holds more than `MAX_USERS = 25`
entries. -/
theorem getOptions_length_le (p : Props) (term : String) :
    (getOptions p term).length ≤ MAX_USERS := by
  unfold getOptions dedupOpt
  exact le_trans (dedupAux_length_le _ _) (List.length_take_le _ _)

/-- C6: with a non-empty selection, `skipCommit` false and the commit call
resolving with an error payload, the state ends with `saving` false,
`inviteError` equal to the payload message, the selection unchanged and the
modal still open. -/
theorem handleSubmit_commit_error (p : Props) (s : ModalState) (m : String)
    (hskip : p.skipCommit = false) (hne : s.values ≠ []) (hshow : s.showModal = true) :
    (handleSubmit p (.error m) s).saving = false ∧
    (handleSubmit p (.error m) s).inviteError = some m ∧
    (handleSubmit p (.error m) s).values = s.values ∧
    (handleSubmit p (.error m) s).showModal = true := by
  refine ⟨?_, ?_, ?_, ?_⟩ <;> simp [handleSubmit, hskip, hshow, hne]

/-- Witness for C6 at a concrete props/state/message triple. -/
theorem handleSubmit_commit_error_witness :
    (handleSubmit c6props (.error "x") c6state).saving = false ∧
    (handleSubmit c6props (.error "x") c6state).inviteError = some "x" ∧
    (handleSubmit c6props (.error "x") c6state).values = c6state.values ∧
    (handleSubmit c6props (.error "x") c6state).showModal = true :=
  handleSubmit_commit_error c6props c6state "x" (by decide) (by decide) (by decide)

/-- C7 counterexample: `u1` is a team member id; two `addValue` calls with
distinct objects of that same identity leave the identity `u1` twice in the
selected values — the `indexOf` guard compares object references, not ids. -/
theorem addValue_double_add_same_id_cex :
    c7q1.id = c7q2.id ∧
    c7props.membersInTeam.contains c7q1.id = true ∧
    ((addValue c7props (.user c7q2) (addValue c7props (.user c7q1) initialState)).values.map Person.id)
      = ["u1", "u1"] := by
  refine ⟨by decide, by decide, by decide⟩

/-- C7 amended: for a team member, calling `addValue` twice with the same
Person object leaves the state of the first call unchanged (the second call
is a no-op), and a single call appends the object exactly once when it was
not yet selected; the duplicate guard uses object reference, so distinct
objects sharing an id are each added. -/
theorem addValue_member_idempotent (p : Props) (u : Person) (s : ModalState)
    (hm : p.membersInTeam.contains u.id = true) :
    addValue p (.user u) (addValue p (.user u) s) = addValue p (.user u) s ∧
    (u ∉ s.values → (addValue p (.user u) s).values = s.values ++ [u]) := by
  have hm2 : u.id ∈ p.membersInTeam := by simpa using hm
  constructor
  · by_cases hv : u ∈ s.values
    · simp [addValue, hm2, hv]
    · have hv2 : u ∈ s.values ++ [u] := by simp
      simp [addValue, hm2, hv, hv2]
  · intro hv
    simp [addValue, hm2, hv]

/-- Witness for the amended C7 at a concrete member and state. -/
theorem addValue_member_idempotent_witness :
    addValue c7props (.user c7q1) (addValue c7props (.user c7q1) initialState)
      = addValue c7props (.user c7q1) initialState ∧
    (addValue c7props (.user c7q1) initialState).values = initialState.values ++ [c7q1] :=
  ⟨(addValue_member_idempotent c7props c7q1 initialState (by decide)).1,
   (addValue_member_idempotent c7props c7q1 initialState (by decide)).2 (by decide)⟩

/-- C8: `addValue` on a user who is not a team member routes the user to the
guest bucket when the roles flag a guest (appending once, if no such object
is already there) and to the non-guest bucket otherwise, in both cases
leaving the selected values and the other bucket unchanged. -/
theorem addValue_not_in_team_routing (p : Props) (u : Person) (s : ModalState)
    (hm : p.membersInTeam.contains u.id = false) :
    (isGuest u.roles = true →
      (addValue p (.user u) s).guestsNotInTeam =
        (if u ∈ s.guestsNotInTeam then s.guestsNotInTeam else s.guestsNotInTeam ++ [u]) ∧
      (addValue p (.user u) s).values = s.values ∧
      (addValue p (.user u) s).usersNotInTeam = s.usersNotInTeam) ∧
    (isGuest u.roles = false →
      (addValue p (.user u) s).usersNotInTeam =
        (if u ∈ s.usersNotInTeam then s.usersNotInTeam else s.usersNotInTeam ++ [u]) ∧
      (addValue p (.user u) s).values = s.values ∧
      (addValue p (.user u) s).guestsNotInTeam = s.guestsNotInTeam) := by
  have hm2 : u.id ∉ p.membersInTeam := by simpa using hm
  constructor
  · intro hg
    by_cases hmem : u ∈ s.guestsNotInTeam <;> simp [addValue, hm2, hg, hmem]
  · intro hg
    by_cases hmem : u ∈ s.usersNotInTeam <;> simp [addValue, hm2, hg, hmem]

/-- Witness for C8: a concrete non-member guest lands in the guest bucket
and a concrete non-member non-guest in the non-guest bucket, with the other
fields untouched. -/
theorem addValue_not_in_team_routing_witness :
    (addValue c8props (.user c8guest) initialState).guestsNotInTeam = [c8guest] ∧
    (addValue c8props (.user c8guest) initialState).values = [] ∧
    (addValue c8props (.user c8guest) initialState).usersNotInTeam = [] ∧
    (addValue c8props (.user c8user) initialState).usersNotInTeam = [c8user] ∧
    (addValue c8props (.user c8user) initialState).values = [] ∧
    (addValue c8props (.user c8user) initialState).guestsNotInTeam = [] := by
  have hg := (addValue_not_in_team_routing c8props c8guest initialState (by decide)).1 (by decide)
  have hu := (addValue_not_in_team_routing c8props c8user initialState (by decide)).2 (by decide)
  refine ⟨?_, ?_, ?_, ?_, ?_, ?_⟩
  · simpa [initialState] using hg.1
  · simpa [initialState] using hg.2.1
  · simpa [initialState] using hg.2.2
  · simpa [initialState] using hu.1
  · simpa [initialState] using hu.2.1
  · simpa [initialState] using hu.2.2

/-- C9: issuing `search "al"` and then `search "ali"` before the first timer
fires leaves a single pending timer carrying `"ali"` (the first timer was
cancelled and replaced, not queued), and its expiry produces exactly one
search dispatch, with the term `"ali"`. -/
theorem search_debounce_cancel_replace (s : SearchDebounce) :
    (search "al" s).pendingTerm = some "al" ∧
    (search "ali" (search "al" s)).pendingTerm = some "ali" ∧
    (fireTimer (search "ali" (search "al" s))).dispatched = s.dispatched ++ ["ali"] ∧
    (fireTimer (search "ali" (search "al" s))).pendingTerm = none := by
  have h1 : strTrim "al" = "al" := by decide
  have h2 : strTrim "ali" = "ali" := by decide
  have h3 : ("ali" == "") = false := by decide
  refine ⟨?_, ?_, ?_, ?_⟩ <;> simp [search, fireTimer, h1, h2, h3]

/-- C10: `addValue` with a Group option is a complete no-op: the state — the
selected values, both not-in-team buckets, term, show, saving, loading and
error — is returned unchanged. -/
theorem addValue_group_noop (p : Props) (g : Group) (s : ModalState) :
    addValue p (.group g) s = s := rfl

end ChannelInvite
